import Mathlib

/-!
Verification development for the backup-manager repository.

The repository contains two variants of the backup engine:
  * backup.py            (function-style engine; names suffixed V1 below)
  * src/backup.py        (class AxiomaticBackupSystem; names suffixed V2 below)

Paths are modelled as lists of components (`FPath`), source trees as finite
lists of files with metadata (`FileEntry`).  File sizes are `Nat`, mtimes are
`ℚ` (the code compares Python floats with exact equality and with the
tolerance 1.0; the comparison logic is faithfully captured over `ℚ`).
-/

set_option autoImplicit false

/-- A relative path, as its list of components (`pathlib.PurePath.parts`). -/
abbrev FPath := List String

/-- Joined string form of a relative path (`str(rel_path)` in the code). -/
def pathStr (p : FPath) : String := String.intercalate "/" p

/-- A source file: relative path components plus stat metadata. -/
structure FileEntry where
  parts : FPath
  size : Nat
  mtime : ℚ
deriving DecidableEq, Repr

/-! ### fnmatch / glob pattern matching

Both variants match file names with `fnmatch.fnmatch`, which supports the
wildcards `*` (any run of characters, `/` included — fnmatch is a pure string
matcher), `?` (exactly one character) and bracket character classes
(`[!...]` negated, `a-z` ranges, a bracket right after the opening one is a
literal member, an unterminated class leaves the opening bracket a literal
character).  On POSIX `os.path.normcase` is the identity, so no case folding
happens. -/

/-- One token of a compiled glob pattern. -/
inductive GlobTok where
  | star
  | anyChar
  | lit (c : Char)
  | cls (neg : Bool) (ranges : List (Char × Char))
deriving DecidableEq, Repr

/-- Scan the raw characters of a bracket class up to the closing bracket.
Returns the member characters and the remaining input, or none when the
class is unterminated. -/
def scanChars : List Char → Option (List Char × List Char)
  | [] => none
  | c :: rest =>
    if c = ']' then some ([], rest)
    else
      match scanChars rest with
      | some (cs, r) => some (c :: cs, r)
      | none => none

theorem scanChars_length : ∀ (l cs r : List Char),
    scanChars l = some (cs, r) → r.length < l.length := by
  intro l
  induction l with
  | nil => intro cs r h; simp [scanChars] at h
  | cons c rest ih =>
    intro cs r h
    by_cases hc : c = ']'
    · subst hc
      simp [scanChars] at h
      obtain ⟨-, h2⟩ := h
      subst h2
      simp
    · simp only [scanChars, if_neg hc] at h
      cases hsc : scanChars rest with
      | none => rw [hsc] at h; simp at h
      | some p =>
        obtain ⟨p1, p2⟩ := p
        rw [hsc] at h
        simp at h
        obtain ⟨-, h2⟩ := h
        subst h2
        have := ih p1 p2 hsc
        simp
        omega

/-- Parse the body of a bracket class into the contained ranges; an isolated
character c becomes the degenerate range (c, c). -/
def parseRanges : List Char → List (Char × Char)
  | [] => []
  | a :: '-' :: b :: rest => (a, b) :: parseRanges rest
  | a :: rest => (a, a) :: parseRanges rest

/-- Scan a bracket class: the input is everything after the opening bracket.
Returns (negated, member chars, rest of pattern). -/
def scanClass (l : List Char) : Option (Bool × List Char × List Char) :=
  if l.head? = some '!' then
    if l.tail.head? = some ']' then
      (scanChars l.tail.tail).map (fun p => (true, ']' :: p.1, p.2))
    else
      (scanChars l.tail).map (fun p => (true, p.1, p.2))
  else
    if l.head? = some ']' then
      (scanChars l.tail).map (fun p => (false, ']' :: p.1, p.2))
    else
      (scanChars l).map (fun p => (false, p.1, p.2))

theorem scanClass_length : ∀ (l : List Char) (n : Bool) (cs r : List Char),
    scanClass l = some (n, cs, r) → r.length ≤ l.length := by
  intro l n cs r h
  unfold scanClass at h
  have e1 : l.tail.length = l.length - 1 := List.length_tail l
  have e2 : l.tail.tail.length = l.tail.length - 1 := List.length_tail _
  split_ifs at h
  all_goals rw [Option.map_eq_some'] at h
  all_goals obtain ⟨p, hp, hep⟩ := h
  all_goals have hr : r = p.2 := (congrArg (fun q => q.2.2) hep).symm
  all_goals subst hr
  all_goals have hlen := scanChars_length _ p.1 p.2 (by simpa using hp)
  all_goals omega

/-- Compile a glob pattern into tokens.  The fuel argument (instantiated with
the pattern length, which bounds the number of steps since every step consumes
at least one character) keeps the recursion structural so that compiled
patterns reduce inside the kernel. -/
def tokenizeGlobF : Nat → List Char → List GlobTok
  | 0, _ => []
  | _ + 1, [] => []
  | fuel + 1, c :: rest =>
    if c = '*' then .star :: tokenizeGlobF fuel rest
    else if c = '?' then .anyChar :: tokenizeGlobF fuel rest
    else if c = '[' then
      match scanClass rest with
      | some (neg, cs, rest2) => .cls neg (parseRanges cs) :: tokenizeGlobF fuel rest2
      | none => .lit '[' :: tokenizeGlobF fuel rest
    else .lit c :: tokenizeGlobF fuel rest

/-- Compile a glob pattern into tokens. -/
def tokenizeGlob (l : List Char) : List GlobTok := tokenizeGlobF l.length l

/-- Does a character belong to a (compiled) bracket class? -/
def matchClass (neg : Bool) (ranges : List (Char × Char)) (c : Char) : Bool :=
  let hit := ranges.any (fun r => decide (r.1 ≤ c) && decide (c ≤ r.2))
  if neg then !hit else hit

/-- Match a compiled glob pattern against a character list.  The star token
matches an arbitrary run of characters, expressed as trying every split of
the remaining input; the remaining tokens are matched structurally. -/
def globMatch : List GlobTok → List Char → Bool
  | [], s => s.isEmpty
  | .star :: ps2, s =>
    (List.range (s.length + 1)).any (fun k => globMatch ps2 (s.drop k))
  | .anyChar :: ps2, s =>
    (match s with
     | [] => false
     | _ :: t => globMatch ps2 t)
  | .lit c :: ps2, s =>
    (match s with
     | [] => false
     | a :: t => a == c && globMatch ps2 t)
  | .cls n rs :: ps2, s =>
    (match s with
     | [] => false
     | a :: t => matchClass n rs a && globMatch ps2 t)

/-- fnmatch.fnmatch on strings (POSIX: no case folding). -/
def fnmatchStr (s pat : String) : Bool := globMatch (tokenizeGlob pat.data) s.data

/-! Character-list implementations of the string primitives the code uses
(str.endswith, slicing, the in operator, str.split on the path separator);
they evaluate inside the kernel. -/

/-- str.endswith. -/
def strEndsWith (s suf : String) : Bool := suf.data.isSuffixOf s.data

/-- Dropping the last n characters of a string. -/
def strDropRight (s : String) (n : Nat) : String :=
  String.mk (s.data.take (s.data.length - n))

/-- Membership of a character in a string. -/
def strContainsChar (s : String) (c : Char) : Bool := s.data.contains c

/-- Split a character list at every occurrence of a separator. -/
def splitChar (sep : Char) : List Char → List (List Char)
  | [] => [[]]
  | c :: rest =>
    let r := splitChar sep rest
    if c = sep then [] :: r
    else (c :: r.headD []) :: r.tail

/-- str.split on the path separator. -/
def splitPath (s : String) : List String := (splitChar '/' s.data).map String.mk

/-- str.strip: remove leading and trailing whitespace. -/
def strTrim (s : String) : String :=
  String.mk ((((s.data.dropWhile Char.isWhitespace).reverse).dropWhile
    Char.isWhitespace).reverse)

example : splitPath "a/b.txt" = ["a", "b.txt"] := by decide
example : splitPath "x.txt" = ["x.txt"] := by decide
example : strEndsWith "*.txt:rec" ":rec" = true := by decide
example : strDropRight "*.txt:rec" 4 = "*.txt" := by decide

example : fnmatchStr "x.txt" "*.txt" = true := by decide
example : fnmatchStr "notes/drafts/x.txt" "*.txt" = true := by decide
example : fnmatchStr "x.txt" "*.log" = false := by decide
example : fnmatchStr "ab" "a?" = true := by decide
example : fnmatchStr "ab" "a[bc]" = true := by decide
example : fnmatchStr "ad" "a[bc]" = false := by decide
example : fnmatchStr "ad" "a[!bc]" = true := by decide
example : fnmatchStr "a/b" "a?b" = true := by decide
example : fnmatchStr "" "*" = true := by decide

/-! ### Finite dictionaries as functions

Python dicts keyed by paths are modelled as functions into `Option`;
insertion-order-dependent overwriting is captured by folding the update list
(`applyAll`) and characterised through the last written value (`lastVal`). -/

/-- A Python dict keyed by relative paths. -/
abbrev FileDict (V : Type) := FPath → Option V

/-- Dict assignment d[k] = v. -/
def updateD {V : Type} (m : FileDict V) (k : FPath) (v : V) : FileDict V :=
  fun x => if k == x then some v else m x

/-- Run a list of dict assignments in order. -/
def applyAll {V : Type} (m : FileDict V) (us : List (FPath × V)) : FileDict V :=
  us.foldl (fun acc kv => updateD acc kv.1 kv.2) m

/-- The last value written for key p by a list of assignments, if any. -/
def lastVal {V : Type} (us : List (FPath × V)) (p : FPath) : Option V :=
  us.foldl (fun acc kv => ((if kv.1 == p then some kv.2 else none).or acc : Option V)) none

theorem foldl_or_acc {α V : Type} (g : α → Option V) :
    ∀ (l : List α) (a : Option V),
      l.foldl (fun acc x => (g x).or acc) a =
        (l.foldl (fun acc x => (g x).or acc) none).or a := by
  intro l
  induction l with
  | nil => intro a; simp
  | cons x l ih =>
    intro a
    simp only [List.foldl_cons]
    rw [ih ((g x).or a), ih ((g x).or none)]
    rw [Option.or_assoc, Option.or_assoc, Option.none_or]

theorem lastVal_cons {V : Type} (kv : FPath × V) (us : List (FPath × V)) (p : FPath) :
    lastVal (kv :: us) p =
      (lastVal us p).or (if kv.1 == p then some kv.2 else none) := by
  simp only [lastVal, List.foldl_cons]
  rw [foldl_or_acc (fun kv : FPath × V => if kv.1 == p then some kv.2 else none)]
  rw [Option.or_none]

theorem lastVal_append {V : Type} (us vs : List (FPath × V)) (p : FPath) :
    lastVal (us ++ vs) p = (lastVal vs p).or (lastVal us p) := by
  simp only [lastVal, List.foldl_append]
  rw [foldl_or_acc (fun kv : FPath × V => if kv.1 == p then some kv.2 else none)]

theorem applyAll_apply {V : Type} :
    ∀ (us : List (FPath × V)) (m : FileDict V) (p : FPath),
      applyAll m us p = (lastVal us p).or (m p) := by
  intro us
  induction us with
  | nil => intro m p; simp [applyAll, lastVal]
  | cons kv us ih =>
    intro m p
    simp only [applyAll, List.foldl_cons]
    have step : (us.foldl (fun acc kv => updateD acc kv.1 kv.2) (updateD m kv.1 kv.2)) p =
        (lastVal us p).or (updateD m kv.1 kv.2 p) := ih (updateD m kv.1 kv.2) p
    rw [show (us.foldl (fun acc kv => updateD acc kv.1 kv.2) (updateD m kv.1 kv.2)) =
          applyAll (updateD m kv.1 kv.2) us from rfl] at *
    rw [step, lastVal_cons, Option.or_assoc]
    congr 1
    by_cases hk : kv.1 == p
    · simp [updateD, hk]
    · simp [updateD, hk]

theorem lastVal_eq_none_iff {V : Type} :
    ∀ (us : List (FPath × V)) (p : FPath),
      lastVal us p = none ↔ ∀ kv ∈ us, kv.1 ≠ p := by
  intro us p
  induction us with
  | nil => simp [lastVal]
  | cons kv us ih =>
    rw [lastVal_cons, Option.or_eq_none]
    constructor
    · intro h q hq
      rcases List.mem_cons.mp hq with h1 | h2
      · intro hqp
        have : kv.1 == p := by rw [h1] at hqp; exact beq_iff_eq.mpr hqp
        rw [if_pos this] at h
        exact Option.some_ne_none _ h.2
      · exact (ih.mp h.1) q h2
    · intro h
      refine ⟨ih.mpr (fun q hq => h q (List.mem_cons_of_mem _ hq)), ?_⟩
      have : ¬ kv.1 == p := by
        intro hb
        exact h kv (List.mem_cons_self _ _) (beq_iff_eq.mp hb)
      rw [if_neg this]

theorem lastVal_mem {V : Type} :
    ∀ (us : List (FPath × V)) (p : FPath) (v : V),
      lastVal us p = some v → (p, v) ∈ us := by
  intro us
  induction us with
  | nil => intro p v h; simp [lastVal] at h
  | cons kv us ih =>
    intro p v h
    rw [lastVal_cons] at h
    cases hlv : lastVal us p with
    | some w =>
      rw [hlv] at h
      simp only [Option.or, Option.some.injEq] at h
      subst h
      exact List.mem_cons_of_mem _ (ih p w hlv)
    | none =>
      rw [hlv, Option.none_or] at h
      by_cases hk : kv.1 == p
      · rw [if_pos hk] at h
        have h1 : kv.1 = p := beq_iff_eq.mp hk
        have h2 : kv.2 = v := by simpa using h
        have hpv : (p, v) = kv := by rw [← h1, ← h2]
        rw [hpv]
        exact List.mem_cons_self _ _
      · rw [if_neg hk] at h
        exact absurd h (Option.some_ne_none _).symm

/-- Fold of a boolean or-accumulator equals the initial value or-ed with any. -/
theorem foldl_or_any {α : Type} (p : α → Bool) :
    ∀ (l : List α) (b : Bool),
      l.foldl (fun acc x => acc || p x) b = (b || l.any p) := by
  intro l
  induction l with
  | nil => intro b; simp
  | cons x l ih =>
    intro b
    simp only [List.foldl_cons, List.any_cons]
    rw [ih]
    cases b <;> cases p x <;> simp

/-! ### Embedding of backup.py (variant V1) -/

/-- parse_rec_pattern: split a trailing recursion suffix off a file pattern. -/
def parseRecPattern (p : String) : String × Bool :=
  if strEndsWith p ":rec" then (strDropRight p 4, true) else (p, false)

/-- is_excluded inside build_mirror_set_with_metadata: the relative path
starts with the components of one of the exclude_dirs entries. -/
def isExcludedPartsV1 (excl : List FPath) (parts : FPath) : Bool :=
  excl.any (fun ep => ep.isPrefixOf parts)

/-- The files collected by walking one include/track root d: files strictly
inside d whose relative path is not under an excluded directory.  The walk in
the source prunes descent at excluded directories and additionally skips any
file whose own relative path is excluded; since exclusion is a
components-prefix test, a file below a pruned directory fails its own test as
well, so the set of collected files is this filter. -/
def walkCollectV1 (tree : List FileEntry) (d : FPath) (excl : List FPath) :
    List FileEntry :=
  tree.filter (fun f =>
    d.isPrefixOf f.parts && decide (d.length < f.parts.length) &&
      !(isExcludedPartsV1 excl f.parts))

/-- Componentwise match of a path against the components of a glob pattern
(pathlib glob semantics: wildcards never cross a path separator). -/
def matchComponents (patParts : List String) (parts : FPath) : Bool :=
  patParts.length == parts.length &&
    (List.zip patParts parts).all (fun q => fnmatchStr q.2 q.1)

/-- pathlib rglob(pat): some suffix of the path matches the pattern
components (rglob prefixes the pattern with a match-any-depth directory
wildcard). -/
def rglobMatchesEntry (pat : String) (f : FileEntry) : Bool :=
  (List.range (f.parts.length + 1)).any (fun k =>
    matchComponents (splitPath pat) (f.parts.drop k))

/-- Explicit include_files/track_files resolution of build_mirror_set_with_metadata:
a recursive pattern goes through src_path.rglob; a pattern containing a path
separator is split at its last separator into a literal directory part and a
glob for the file name, matched against the direct children of that
directory; otherwise the pattern is matched against the direct children of
the source root. -/
def expandExplicitV1 (tree : List FileEntry) (pattern : String) : List FileEntry :=
  let pr := parseRecPattern pattern
  if pr.2 then
    tree.filter (rglobMatchesEntry pr.1)
  else if strContainsChar pattern '/' then
    let compParts := splitPath pattern
    let dirPart := compParts.dropLast
    let filePat := compParts.getLastD ""
    tree.filter (fun f =>
      f.parts.dropLast == dirPart &&
        decide (f.parts.length = dirPart.length + 1) &&
        fnmatchStr (f.parts.getLastD "") filePat)
  else
    tree.filter (fun f => matchComponents [pattern] f.parts)

/-- matches_exclude_for_file: recursive patterns fnmatch the joined relative
path, patterns with a separator fnmatch the joined relative path as a plain
string, and bare patterns match only files directly in the source root. -/
def matchesExcludeForFileV1 (rel : FPath) (pattern : String) : Bool :=
  let pr := parseRecPattern pattern
  if pr.2 then fnmatchStr (pathStr rel) pr.1
  else if strContainsChar pattern '/' then fnmatchStr (pathStr rel) pattern
  else if rel.length == 1 then fnmatchStr (rel.headD "") pattern
  else false

/-- Value stored for a file by build_mirror_set_with_metadata:
(is_tracked, (size, mtime)). -/
abbrev MirrorVal := Bool × Nat × ℚ

/-- The dict writes performed by the directory walk: each directory of
include_dirs ++ track_dirs is walked in order, tagging its files tracked
exactly when the directory is listed in track_dirs. -/
def walkUpdatesV1 (tree : List FileEntry) (incD trkD excl : List FPath) :
    List (FPath × MirrorVal) :=
  (incD ++ trkD).flatMap (fun d =>
    (walkCollectV1 tree d excl).map (fun f =>
      (f.parts, (trkD.contains d, f.size, f.mtime))))

/-- The dict writes performed by the explicit include_files/track_files pass:
patterns are processed in order include_files ++ track_files, and a match is
tagged tracked exactly when its pattern is listed in track_files. -/
def explicitUpdatesV1 (tree : List FileEntry) (incF trkF : List String) :
    List (FPath × MirrorVal) :=
  (incF ++ trkF).flatMap (fun pattern =>
    (expandExplicitV1 tree pattern).map (fun f =>
      (f.parts, (trkF.contains pattern, f.size, f.mtime))))

/-- Membership in the explicit_files set of build_mirror_set_with_metadata. -/
def explicitMemV1 (tree : List FileEntry) (incF trkF : List String) (p : FPath) :
    Bool :=
  (incF ++ trkF).any (fun pattern =>
    (expandExplicitV1 tree pattern).any (fun f => f.parts == p))

/-- build_mirror_set_with_metadata: walk include/track directories, add
explicit include_files/track_files matches, then delete every non-explicit
entry matching an exclude_files pattern.  The deletion loop over the dict
keys acts pointwise, so it is expressed as a pointwise filter. -/
def buildMirrorSetV1 (tree : List FileEntry) (incD trkD : List FPath)
    (incF trkF exclF : List String) (exclD : List FPath) : FileDict MirrorVal :=
  let afterWalk := applyAll (fun _ => none) (walkUpdatesV1 tree incD trkD exclD)
  let afterExplicit := applyAll afterWalk (explicitUpdatesV1 tree incF trkF)
  fun p =>
    if explicitMemV1 tree incF trkF p then afterExplicit p
    else if exclF.any (fun pat => matchesExcludeForFileV1 p pat) then none
    else afterExplicit p

/-- The new/changed tracked-file detection of backup(): a tracked source file
is selected when the fresh mirror scan has no entry at its relative path or
when the scanned (size, mtime) pair differs exactly from the source pair. -/
def newOrChangedTrackedV1 (trackedSet : List FPath) (srcMeta : FPath → Nat × ℚ)
    (mirrorFiles : List (FPath × (Nat × ℚ))) : List FPath :=
  trackedSet.filter (fun f =>
    match mirrorFiles.lookup f with
    | none => true
    | some m => !(m == srcMeta f))

/-- hardlink_file: in a real run, try os.link and on an OSError fall back to
copy_file; the boolean oracles say whether the link attempt and the fallback
copy would succeed. -/
def hardlinkFileV1 (dryRun linkOk copyOk : Bool) : Bool :=
  if dryRun then true else if linkOk then true else copyOk

/-- create_hardlink_or_copy of the V2 variant: identical fallback structure. -/
def createHardlinkOrCopyV2 (linkOk copyOk : Bool) : Bool :=
  if linkOk then true else copyOk

/-! The increment phase of backup() (V1): environment of oracles for the
filesystem conditions and per-file operation outcomes. -/

structure IncEnvV1 where
  newOrChanged : List FPath
  deletedTracked : List FPath
  mirrorIsFile : FPath → Bool
  mirrorIsDir : FPath → Bool
  srcExists : FPath → Bool
  copyOk : FPath → Bool
  linkOk : FPath → Bool
  fallbackCopyOk : FPath → Bool
  mkdirOk : FPath → Bool

/-- One iteration of the deleted-files loop: a mirror file is hardlinked
(with copy fallback) under the deleted subtree; a mirror directory is
re-created there; success sets files_added. -/
def deletedStepSuccessV1 (env : IncEnvV1) (rel : FPath) : Bool :=
  if env.mirrorIsFile rel then
    hardlinkFileV1 false (env.linkOk rel) (env.fallbackCopyOk rel)
  else if env.mirrorIsDir rel then env.mkdirOk rel
  else false

/-- One iteration of the new/changed loop: the source file must still exist,
its copy into the mirror must succeed, and then the hardlink (with copy
fallback) into the track subtree must succeed. -/
def newChangedStepSuccessV1 (env : IncEnvV1) (f : FPath) : Bool :=
  env.srcExists f &&
    (env.copyOk f && hardlinkFileV1 false (env.linkOk f) (env.fallbackCopyOk f))

/-- The files_added flag after both loops (deleted first, then new/changed). -/
def filesAddedV1 (env : IncEnvV1) : Bool :=
  env.newOrChanged.foldl (fun fa f => fa || newChangedStepSuccessV1 env f)
    (env.deletedTracked.foldl (fun fa rel => fa || deletedStepSuccessV1 env rel) false)

/-- Final state of the increment directory after a run. -/
inductive IncResult where
  | noDir
  | kept
  | removed
deriving DecidableEq, Repr

/-- The increment phase of backup(): the directory is created only when a
tracked change was detected, and kept exactly when files_added is set or
deleted_tracked is nonempty; otherwise it is removed again. -/
def incrementPhaseV1 (env : IncEnvV1) : IncResult :=
  if env.newOrChanged.isEmpty && env.deletedTracked.isEmpty then .noDir
  else if filesAddedV1 env || !env.deletedTracked.isEmpty then .kept
  else .removed

/-- remove_empty_dirs of backup.py works on the subdirectories produced by
os.walk bottom-up and never touches the root it is called on; its cascading
effect on each subtree is captured by removeEmptyDirs below with an empty
preserve set (see pruneEmptySubdirsV1). -/

example :
    expandExplicitV1 [⟨["notes", "drafts", "x.txt"], 10, 0⟩] "*.txt" = [] := by decide

example :
    expandExplicitV1 [⟨["notes", "drafts", "x.txt"], 10, 0⟩] "*.txt:rec" =
      [⟨["notes", "drafts", "x.txt"], 10, 0⟩] := by decide

example :
    expandExplicitV1 [⟨["a", "x.txt"], 1, 0⟩, ⟨["x.txt"], 2, 0⟩] "a/*.txt" =
      [⟨["a", "x.txt"], 1, 0⟩] := by decide

/-! ### Embedding of src/backup.py (variant V2, class AxiomaticBackupSystem) -/

/-- parse_pattern_cached: strip whitespace, then split a recursion suffix. -/
def parsePatternV2 (p : String) : String × Bool :=
  let q := strTrim p
  if strEndsWith q ":rec" then (strDropRight q 4, true) else (q, false)

/-- is_dir_excluded_cached: the directory equals an excluded directory or has
one among its ancestors, i.e. some excluded path is a components-prefix. -/
def isDirExcludedV2 (excl : List FPath) (a : FPath) : Bool :=
  excl.any (fun e => e.isPrefixOf a)

/-- scan_directory_recursive: files strictly inside the root d such that no
directory strictly between d and the file is excluded (os.walk descent is
pruned at excluded directories; files themselves are not tested). -/
def scanDirV2 (tree : List FileEntry) (d : FPath) (excl : List FPath) :
    List FileEntry :=
  tree.filter (fun f =>
    d.isPrefixOf f.parts && decide (d.length < f.parts.length) &&
      (List.range f.parts.length).all (fun k =>
        if d.length < k then !(isDirExcludedV2 excl (f.parts.take k)) else true))

/-- expand_file_patterns for one pattern: recursive patterns go through
rglob, plain ones through glob with componentwise matching. -/
def expandOneV2 (tree : List FileEntry) (pattern : String) : List FileEntry :=
  let pr := parsePatternV2 pattern
  if pr.2 then tree.filter (rglobMatchesEntry pr.1)
  else tree.filter (fun f => matchComponents (splitPath pr.1) f.parts)

/-- expand_file_patterns over a pattern set (union of the per-pattern sets;
list concatenation is membership-equivalent). -/
def expandFilePatternsV2 (tree : List FileEntry) (patterns : List String) :
    List FileEntry :=
  patterns.flatMap (expandOneV2 tree)

/-- is_file_excluded: recursive patterns fnmatch the joined relative path,
plain patterns fnmatch the file name only. -/
def isFileExcludedV2 (p : FPath) (exclF : List String) : Bool :=
  exclF.any (fun pattern =>
    let pr := parsePatternV2 pattern
    if pr.2 then fnmatchStr (pathStr p) pr.1
    else fnmatchStr (p.getLastD "") pr.1)

/-- Phase 1 of build_file_sets: scan include_dirs, tagging every found file
with the include kind. -/
def phase1V2 (tree : List FileEntry) (excl : List FPath) (incD : List FPath) :
    FileDict String :=
  applyAll (fun _ => none)
    (incD.flatMap (fun d => (scanDirV2 tree d excl).map (fun f => (f.parts, "include"))))

/-- One file step of phase 2 of build_file_sets: a file already tagged keeps
its tag when directory_priority is include and is retagged track otherwise;
an untagged file is tagged track. -/
def step2V2 (prio : String) (m : FileDict String) (p : FPath) : FileDict String :=
  match m p with
  | some _ => if prio == "include" then m else updateD m p "track"
  | none => updateD m p "track"

/-- Phase 2 of build_file_sets: scan track_dirs over the map from phase 1. -/
def phase2V2 (tree : List FileEntry) (excl : List FPath) (prio : String)
    (m0 : FileDict String) (trkD : List FPath) : FileDict String :=
  trkD.foldl (fun m d => (scanDirV2 tree d excl).foldl (fun m f => step2V2 prio m f.parts) m) m0

/-- file_to_dir_type after both scanning phases. -/
def fileToDirTypeV2 (tree : List FileEntry) (incD trkD excl : List FPath)
    (prio : String) : FileDict String :=
  phase2V2 tree excl prio (phase1V2 tree excl incD) trkD

/-- The keys ever inserted into file_to_dir_type (all scanned files). -/
def scannedKeysV2 (tree : List FileEntry) (incD trkD excl : List FPath) : List FPath :=
  (incD ++ trkD).flatMap (fun d => (scanDirV2 tree d excl).map (fun f => f.parts))

/-- Result of build_file_sets: the full file set and its tracked subset. -/
structure ClassificationV2 where
  allFiles : List FPath
  trackedFiles : List FPath
deriving DecidableEq, Repr

/-- files_from_include_dirs: scanned files whose final tag is include. -/
def filesFromIncDirsV2 (tree : List FileEntry) (incD trkD exclD : List FPath)
    (prio : String) : List FPath :=
  (scannedKeysV2 tree incD trkD exclD).filter
    (fun p => fileToDirTypeV2 tree incD trkD exclD prio p == some "include")

/-- files_from_track_dirs: scanned files whose final tag is track. -/
def filesFromTrkDirsV2 (tree : List FileEntry) (incD trkD exclD : List FPath)
    (prio : String) : List FPath :=
  (scannedKeysV2 tree incD trkD exclD).filter
    (fun p => fileToDirTypeV2 tree incD trkD exclD prio p == some "track")

/-- The expanded include_files set. -/
def incFilesV2 (tree : List FileEntry) (incF : List String) : List FPath :=
  (expandFilePatternsV2 tree incF).map (fun f => f.parts)

/-- The expanded track_files set after the include-over-track subtraction
(track_files = track_files - include_files, step 5 of build_file_sets). -/
def trkFilesV2 (tree : List FileEntry) (incF trkF : List String) : List FPath :=
  ((expandFilePatternsV2 tree trkF).map (fun f => f.parts)).filter
    (fun p => !(incFilesV2 tree incF).contains p)

/-- The include-directory files surviving exclude_files. -/
def filtIncV2 (tree : List FileEntry) (incD trkD exclD : List FPath)
    (prio : String) (exclF : List String) : List FPath :=
  if exclF.isEmpty then filesFromIncDirsV2 tree incD trkD exclD prio
  else (filesFromIncDirsV2 tree incD trkD exclD prio).filter
    (fun p => !isFileExcludedV2 p exclF)

/-- The track-directory files surviving exclude_files. -/
def filtTrkV2 (tree : List FileEntry) (incD trkD exclD : List FPath)
    (prio : String) (exclF : List String) : List FPath :=
  if exclF.isEmpty then filesFromTrkDirsV2 tree incD trkD exclD prio
  else (filesFromTrkDirsV2 tree incD trkD exclD prio).filter
    (fun p => !isFileExcludedV2 p exclF)

/-- build_file_sets: tag directory-scanned files by priority, expand the
explicit file patterns, give include_files precedence over track_files (set
subtraction), filter only directory-sourced files through exclude_files, and
take the unions.  Python sets are modelled as lists up to membership. -/
def buildFileSetsV2 (tree : List FileEntry) (incD trkD exclD : List FPath)
    (incF trkF exclF : List String) (prio : String) : ClassificationV2 :=
  let all := filtIncV2 tree incD trkD exclD prio exclF ++
    filtTrkV2 tree incD trkD exclD prio exclF ++
    incFilesV2 tree incF ++ trkFilesV2 tree incF trkF
  let tracked := (filtTrkV2 tree incD trkD exclD prio exclF ++
    trkFilesV2 tree incF trkF).filter (fun p => all.contains p)
  ⟨all, tracked⟩

/-- One entry of the persisted mirror state (mirror.json). -/
structure MirrorEntryV2 where
  size : Nat
  mtime : ℚ
  tracked : Bool
deriving DecidableEq, Repr

/-- The mirror state dict, keyed by relative path. -/
abbrev MirrorStateV2 := List (FPath × MirrorEntryV2)

/-- Entry lookup with the .get defaults (size 0, mtime 0) used by get_changes. -/
def lookupEntryV2 (ms : MirrorStateV2) (p : FPath) : MirrorEntryV2 :=
  (ms.lookup p).getD ⟨0, 0, false⟩

/-- The paths recorded as tracked in the prior mirror state. -/
def previousTrackedV2 (ms : MirrorStateV2) : List FPath :=
  (ms.filter (fun kv => kv.2.tracked)).map (fun kv => kv.1)

/-- Result sets of get_changes. -/
structure ChangesV2 where
  newFiles : List FPath
  changedFiles : List FPath
  deletedFiles : List FPath
deriving DecidableEq, Repr

/-- get_changes: deleted = previously tracked paths gone from all_files,
new = currently tracked paths not previously tracked, changed = common paths
whose stored size differs from the current size or whose stored mtime is more
than 1.0 seconds away from the current mtime.  The current metadata lookup
(get_file_metadata_cached) is an oracle argument. -/
def getChangesV2 (ms : MirrorStateV2) (currentTracked allFiles : List FPath)
    (meta : FPath → Nat × ℚ) : ChangesV2 :=
  let prev := previousTrackedV2 ms
  let deleted := prev.filter (fun p => !allFiles.contains p)
  let newF := currentTracked.filter (fun p => !prev.contains p)
  let common := currentTracked.filter (fun p => prev.contains p)
  let changed := common.filter (fun p =>
    let e := lookupEntryV2 ms p
    let c := meta p
    !(e.size == c.1) || decide (|e.mtime - c.2| > 1))
  ⟨newF, changed, deleted⟩

/-! ### MetadataStore models (save_mirror_state / load_mirror_state) -/

/-- The two files the store touches inside the destination directory. -/
structure StoreFS where
  mirrorJson : Option String
  tmpFile : Option String
deriving DecidableEq, Repr

/-- Failure mode of one save attempt: success, an exception after j
characters of the temp file were written, or an exception at the rename. -/
inductive SaveOutcome where
  | ok
  | failWrite (j : Nat)
  | failRename
deriving DecidableEq, Repr

/-- Serialised form of a mirror state (stands for json.dump output). -/
def serializeStateV2 (st : MirrorStateV2) : String :=
  String.intercalate ";" (st.map (fun kv =>
    pathStr kv.1 ++ ":" ++ toString kv.2.size ++ ":" ++ toString kv.2.mtime ++
      ":" ++ (if kv.2.tracked then "1" else "0")))

/-- Writing the temp file: complete on success, a prefix when the write
raises after j characters. -/
def writeTmpV2 (fs : StoreFS) (content : String) (failAt : Option Nat) : StoreFS :=
  match failAt with
  | none => { fs with tmpFile := some content }
  | some j => { fs with tmpFile := some (String.mk (content.data.take j)) }

/-- temp_file.replace(mirror_file): atomic rename of the temp file over the
canonical file (the OS guarantee the code relies on). -/
def replaceV2 (fs : StoreFS) : StoreFS :=
  match fs.tmpFile with
  | some c => { mirrorJson := some c, tmpFile := none }
  | none => fs

/-- The exception handler: remove the temp file if it exists. -/
def cleanupTmpV2 (fs : StoreFS) : StoreFS := { fs with tmpFile := none }

/-- save_mirror_state: write the serialised state to mirror.json.tmp, then
atomically rename it over mirror.json; on any exception remove the temp file
and leave mirror.json untouched. -/
def saveMirrorStateV2 (fs : StoreFS) (st : MirrorStateV2) (o : SaveOutcome) : StoreFS :=
  match o with
  | .ok => replaceV2 (writeTmpV2 fs (serializeStateV2 st) none)
  | .failWrite j => cleanupTmpV2 (writeTmpV2 fs (serializeStateV2 st) (some j))
  | .failRename => cleanupTmpV2 (writeTmpV2 fs (serializeStateV2 st) none)

/-- What load_mirror_state finds on disk: no file, a file whose json.load
raises, or a file parsing to a state. -/
abbrev LoadDisk := Option (Option MirrorStateV2)

/-- load_mirror_state: the state stays the initial empty dict when the file
is missing; a parse error is caught, logged and leaves the empty dict; a
valid file yields its contents.  No exception escapes. -/
def loadMirrorStateV2 (disk : LoadDisk) : MirrorStateV2 :=
  match disk with
  | none => []
  | some none => []
  | some (some st) => st

/-! ### Directory trees and empty-directory cleanup -/

/-- A directory: its name, subdirectories and directly contained file names. -/
inductive DirTree where
  | node (name : String) (subdirs : List DirTree) (files : List String)

/-- Name of a directory node. -/
def DirTree.dirName : DirTree → String
  | .node n _ _ => n

/-- Is a preserved-directory entry a substring of a name?  The code tests
p in dir_name, which is Python substring containment. -/
def strContainsSub (s pat : String) : Bool :=
  if pat.data.isEmpty then true else isInfixList pat.data s.data
where
  isInfixList (pat : List Char) : List Char → Bool
    | [] => pat.isEmpty
    | s@(_ :: t) => pat.isPrefixOf s || isInfixList pat t

/-- The preservation test of remove_empty_dirs (V2): some preserved entry is
a substring of the directory name. -/
def preserveHit (preserve : List String) (name : String) : Bool :=
  preserve.any (fun p => strContainsSub name p)

mutual
/-- remove_empty_dirs of src/backup.py (V2): recursively clean the
subdirectories, then remove the directory itself when it ended up empty and
no preserved entry occurs in its name; returns none when the directory was
removed. -/
def removeEmptyDirsV2 (preserve : List String) : DirTree → Option DirTree
  | .node name subs files =>
    let subs2 := removeEmptyDirsListV2 preserve subs
    if subs2.isEmpty && files.isEmpty && !preserveHit preserve name then none
    else some (.node name subs2 files)

/-- The recursive pass over a list of subdirectories, dropping removed ones. -/
def removeEmptyDirsListV2 (preserve : List String) : List DirTree → List DirTree
  | [] => []
  | t :: ts =>
    match removeEmptyDirsV2 preserve t with
    | some t2 => t2 :: removeEmptyDirsListV2 preserve ts
    | none => removeEmptyDirsListV2 preserve ts
end

/-- remove_empty_dirs of backup.py (V1): os.walk bottom-up removes each
subdirectory that is empty after its own subtree was processed, but the walk
root itself is never a removal candidate; the cascading effect on each
subtree equals the V2 recursion with an empty preserve set. -/
def pruneEmptySubdirsV1 : DirTree → DirTree
  | .node name subs files => .node name (removeEmptyDirsListV2 [] subs) files

mutual
/-- All file paths in a tree, relative to the root node (whose own name is
not included). -/
def treeFiles : DirTree → List (List String)
  | .node _ subs files => files.map (fun f => [f]) ++ treeFilesList subs

/-- File paths contributed by a list of subdirectories, each prefixed with
the subdirectory name. -/
def treeFilesList : List DirTree → List (List String)
  | [] => []
  | t :: ts => (treeFiles t).map (fun p => t.dirName :: p) ++ treeFilesList ts
end

/-- File paths of an optional tree (none: the tree was removed). -/
def treeFilesO : Option DirTree → List (List String)
  | none => []
  | some t => treeFiles t

example : removeEmptyDirsV2 [] (.node "mirror" [] []) = none := by
  simp [removeEmptyDirsV2, removeEmptyDirsListV2, preserveHit]

example :
    removeEmptyDirsV2 [".git"] (.node ".git" [] []) =
      some (.node ".git" [] []) := by
  simp [removeEmptyDirsV2, removeEmptyDirsListV2, preserveHit, strContainsSub,
    strContainsSub.isInfixList]

/-! ### Claim theorems -/

/-- C5: for every (source, destination) pair, the hardlink operation
succeeds iff creating the hard link succeeds or, after it raises, the copy
fallback succeeds; it fails only when both fail, and the returned boolean is
the same whether the link or the fallback copy produced the file, so the
caller cannot tell which strategy was used.  Holds for hardlink_file (V1,
real-run mode) and create_hardlink_or_copy (V2). -/
theorem C5_hardlink_fallback :
    ∀ linkOk copyOk : Bool,
      hardlinkFileV1 false linkOk copyOk = (linkOk || copyOk) ∧
      createHardlinkOrCopyV2 linkOk copyOk = (linkOk || copyOk) ∧
      hardlinkFileV1 false true copyOk = hardlinkFileV1 false false true ∧
      createHardlinkOrCopyV2 true copyOk = createHardlinkOrCopyV2 false true := by
  intro linkOk copyOk
  cases linkOk <;> cases copyOk <;>
    simp [hardlinkFileV1, createHardlinkOrCopyV2]

/-- C7: load_mirror_state yields the empty state when mirror.json does not
exist and when its contents fail to parse (the error is caught and logged,
not re-raised), and yields the parsed state otherwise. -/
theorem C7_robust_state_load :
    loadMirrorStateV2 none = [] ∧
    loadMirrorStateV2 (some none) = [] ∧
    ∀ st : MirrorStateV2, loadMirrorStateV2 (some (some st)) = st :=
  ⟨rfl, rfl, fun _ => rfl⟩

/-- C3: save_mirror_state writes the serialised state to a temp file in the
destination directory and renames it over mirror.json; after any attempt the
canonical file holds either the complete old contents or the complete new
serialisation (never a partial mixture), a successful attempt installs the
new serialisation, and a failed attempt leaves mirror.json unchanged with
the temp file removed. -/
theorem C3_atomic_state_persistence :
    ∀ (fs : StoreFS) (st : MirrorStateV2) (o : SaveOutcome),
      ((saveMirrorStateV2 fs st o).mirrorJson = fs.mirrorJson ∨
        (saveMirrorStateV2 fs st o).mirrorJson = some (serializeStateV2 st)) ∧
      (o = .ok →
        (saveMirrorStateV2 fs st o).mirrorJson = some (serializeStateV2 st) ∧
        (saveMirrorStateV2 fs st o).tmpFile = none) ∧
      (o ≠ .ok →
        (saveMirrorStateV2 fs st o).mirrorJson = fs.mirrorJson ∧
        (saveMirrorStateV2 fs st o).tmpFile = none) := by
  intro fs st o
  cases o <;> simp [saveMirrorStateV2, writeTmpV2, replaceV2, cleanupTmpV2]

theorem C3_atomic_state_persistence_witness :
    (saveMirrorStateV2 ⟨some "old", none⟩ [] (.failWrite 3)).mirrorJson = some "old" ∧
    (saveMirrorStateV2 ⟨some "old", none⟩ [] (.failWrite 3)).tmpFile = none :=
  (C3_atomic_state_persistence ⟨some "old", none⟩ [] (.failWrite 3)).2.2
    (by decide)

/-- The files_added flag equals: some deleted entry or some new/changed entry
was successfully materialised. -/
theorem filesAddedV1_eq (env : IncEnvV1) :
    filesAddedV1 env =
      (env.deletedTracked.any (deletedStepSuccessV1 env) ||
        env.newOrChanged.any (newChangedStepSuccessV1 env)) := by
  unfold filesAddedV1
  rw [foldl_or_any, foldl_or_any]
  cases env.deletedTracked.any (deletedStepSuccessV1 env) <;> simp

/-- The increment phase, with files_added replaced by its closed form. -/
theorem incrementPhaseV1_eq (env : IncEnvV1) :
    incrementPhaseV1 env =
      (if env.newOrChanged.isEmpty && env.deletedTracked.isEmpty then .noDir
       else if !env.deletedTracked.isEmpty ||
           env.newOrChanged.any (newChangedStepSuccessV1 env) then .kept
       else .removed) := by
  unfold incrementPhaseV1
  rw [filesAddedV1_eq]
  rcases env.deletedTracked with - | ⟨d, ds⟩ <;>
    rcases env.newOrChanged with - | ⟨n, ns⟩ <;> simp

/-- C4 (amended): an increment directory is created iff a tracked change
(new, changed or deleted tracked file) was detected; it is kept iff
deleted_tracked is nonempty or some new/changed file was actually
materialised, and removed again only when there were only new/changed
candidates and none of them was materialised.  (The claim as frozen also
required at least one materialised file whenever the directory survives;
the code keeps the directory for a nonempty deleted set even when nothing
was materialised, see the counterexample.) -/
theorem C4_increment_existence_amended :
    ∀ env : IncEnvV1,
      (incrementPhaseV1 env = .noDir ↔
        env.newOrChanged = [] ∧ env.deletedTracked = []) ∧
      (incrementPhaseV1 env = .kept ↔
        (env.deletedTracked ≠ [] ∨
          ∃ f ∈ env.newOrChanged, newChangedStepSuccessV1 env f = true)) ∧
      (incrementPhaseV1 env = .removed ↔
        (env.newOrChanged ≠ [] ∧ env.deletedTracked = [] ∧
          ∀ f ∈ env.newOrChanged, newChangedStepSuccessV1 env f = false)) := by
  intro env
  rw [incrementPhaseV1_eq]
  rcases hd : env.deletedTracked with - | ⟨d, ds⟩
  · rcases hn : env.newOrChanged with - | ⟨n, ns⟩
    · simp
    · by_cases hs : (n :: ns).any (newChangedStepSuccessV1 env) = true
      · obtain ⟨f, hf, hsf⟩ := List.any_eq_true.mp hs
        simp [hs]
        rcases List.mem_cons.mp hf with hfe | hf2
        · subst hfe
          exact ⟨Or.inl hsf, fun hn0 => absurd hsf (by simp [hn0])⟩
        · exact ⟨Or.inr ⟨f, hf2, hsf⟩, fun _ => ⟨f, hf2, hsf⟩⟩
      · have hs2 : (n :: ns).any (newChangedStepSuccessV1 env) = false := by
          revert hs; cases (n :: ns).any (newChangedStepSuccessV1 env) <;> simp
        have hall := List.any_eq_false.mp hs2
        simp [hs2]
        constructor
        · have := hall n (List.mem_cons_self _ _)
          revert this; cases newChangedStepSuccessV1 env n <;> simp
        · intro f hf
          have := hall f (List.mem_cons_of_mem _ hf)
          revert this; cases newChangedStepSuccessV1 env f <;> simp
  · simp

/-- C4 counterexample: a run whose only tracked change is one deleted
tracked file, where both the hardlink and the fallback copy into the deleted
subtree fail: no file is materialised into the increment directory
(files_added stays false), yet the directory is kept because deleted_tracked
is nonempty — against the claim that a directory into which no file was
materialised is deleted. -/
theorem C4_counterexample :
    incrementPhaseV1
        ⟨[], [["doc.txt"]], fun _ => true, fun _ => false, fun _ => false,
          fun _ => false, fun _ => false, fun _ => false, fun _ => false⟩ =
      .kept ∧
    filesAddedV1
        ⟨[], [["doc.txt"]], fun _ => true, fun _ => false, fun _ => false,
          fun _ => false, fun _ => false, fun _ => false, fun _ => false⟩ =
      false := by
  constructor <;> rfl

/-- C2 (amended): the mirror_state-based detector get_changes (V2) marks a
currently tracked path as changed iff it was tracked in the prior state and
its stored size differs from the current size or its stored mtime differs
from the current mtime by strictly more than 1.0 seconds; the scan-based
detector of backup() (V1) instead marks a tracked path as new-or-changed iff
the fresh mirror scan does not hold exactly the source (size, mtime) pair —
an exact comparison with no mtime tolerance. -/
theorem C2_change_detection_amended :
    (∀ (ms : MirrorStateV2) (currentTracked allFiles : List FPath)
        (meta : FPath → Nat × ℚ) (p : FPath),
        p ∈ (getChangesV2 ms currentTracked allFiles meta).changedFiles ↔
          p ∈ currentTracked ∧ p ∈ previousTrackedV2 ms ∧
            ((lookupEntryV2 ms p).size ≠ (meta p).1 ∨
              |(lookupEntryV2 ms p).mtime - (meta p).2| > 1)) ∧
    (∀ (trackedSet : List FPath) (srcMeta : FPath → Nat × ℚ)
        (mirrorFiles : List (FPath × (Nat × ℚ))) (p : FPath),
        p ∈ newOrChangedTrackedV1 trackedSet srcMeta mirrorFiles ↔
          p ∈ trackedSet ∧ mirrorFiles.lookup p ≠ some (srcMeta p)) := by
  constructor
  · intro ms currentTracked allFiles meta p
    simp only [getChangesV2, List.mem_filter]
    constructor
    · rintro ⟨⟨hct, hprev⟩, hcond⟩
      refine ⟨hct, ?_, ?_⟩
      · simpa using hprev
      · revert hcond
        by_cases h1 : (lookupEntryV2 ms p).size = (meta p).1 <;>
          by_cases h2 : |(lookupEntryV2 ms p).mtime - (meta p).2| > 1 <;>
            simp [h1, h2]
    · rintro ⟨hct, hprev, hcond⟩
      refine ⟨⟨hct, by simpa using hprev⟩, ?_⟩
      rcases hcond with h1 | h2
      · simp [h1]
      · simp [h2]
  · intro trackedSet srcMeta mirrorFiles p
    simp only [newOrChangedTrackedV1, List.mem_filter]
    constructor
    · rintro ⟨hts, hcond⟩
      refine ⟨hts, ?_⟩
      revert hcond
      cases hl : mirrorFiles.lookup p with
      | none => simp
      | some m =>
        by_cases hm : m = srcMeta p <;> simp [hm]
    · rintro ⟨hts, hcond⟩
      refine ⟨hts, ?_⟩
      cases hl : mirrorFiles.lookup p with
      | none => simp
      | some m =>
        have : ¬ m = srcMeta p := by
          intro he; exact hcond (hl ▸ he ▸ rfl)
        simp [this]

/-- C2 counterexample: in backup() (V1) a tracked file present in the mirror
with equal size and an mtime difference of exactly 0.5 seconds (at most
1.0 s) is nevertheless classified as new-or-changed, because the comparison
is exact, refuting the claimed 1.0-second tolerance for that detector. -/
theorem C2_counterexample :
    (["a.txt"] ∈ newOrChangedTrackedV1 [["a.txt"]]
        (fun _ => (100, 1000 + 1 / 2)) [(["a.txt"], (100, 1000))]) ∧
    (100 : Nat) = 100 ∧
    |(1000 : ℚ) - (1000 + 1 / 2)| ≤ 1 := by
  refine ⟨?_, rfl, ?_⟩
  · simp [newOrChangedTrackedV1, List.lookup]
  · rw [show (1000 : ℚ) - (1000 + 1 / 2) = -(1 / 2) from by ring, abs_neg,
      abs_of_nonneg (by norm_num)]
    norm_num

/-- A file matched by an explicit pattern always has a last written value in
the explicit update pass. -/
theorem explicitUpdatesV1_hasKey (tree : List FileEntry) (incF trkF : List String)
    (p : FPath) (hm : explicitMemV1 tree incF trkF p = true) :
    lastVal (explicitUpdatesV1 tree incF trkF) p ≠ none := by
  intro hnone
  rw [lastVal_eq_none_iff] at hnone
  unfold explicitMemV1 at hm
  obtain ⟨pattern, hpat, hin⟩ := List.any_eq_true.mp hm
  obtain ⟨f, hf, hfp⟩ := List.any_eq_true.mp hin
  have hfp2 : f.parts = p := by simpa using hfp
  have hmem : (f.parts, (trkF.contains pattern, f.size, f.mtime)) ∈
      explicitUpdatesV1 tree incF trkF := by
    unfold explicitUpdatesV1
    rw [List.mem_flatMap]
    exact ⟨pattern, hpat, List.mem_map.mpr ⟨f, hf, rfl⟩⟩
  exact (hnone _ hmem) hfp2

/-- C1: the exemption invariant.  (1) In build_mirror_set_with_metadata
(V1), a file matched by an explicit include_files or track_files pattern is
present in the resulting classification, for every configuration — in
particular for every exclude_files list.  (2) In build_file_sets (V2), a
file matched by an explicit include_files or track_files pattern is in the
resulting all_files set, for every configuration.  (3) exclude_files removes
only non-explicit files: in V1 a non-explicit path matching an exclude
pattern is absent from the result. -/
theorem C1_exemption_invariant :
    (∀ (tree : List FileEntry) (incD trkD exclD : List FPath)
        (incF trkF exclF : List String) (p : FPath),
        explicitMemV1 tree incF trkF p = true →
        buildMirrorSetV1 tree incD trkD incF trkF exclF exclD p ≠ none) ∧
    (∀ (tree : List FileEntry) (incD trkD exclD : List FPath)
        (incF trkF exclF : List String) (prio : String) (p : FPath),
        (p ∈ (expandFilePatternsV2 tree incF).map (fun f => f.parts) ∨
          p ∈ (expandFilePatternsV2 tree trkF).map (fun f => f.parts)) →
        p ∈ (buildFileSetsV2 tree incD trkD exclD incF trkF exclF prio).allFiles) ∧
    (∀ (tree : List FileEntry) (incD trkD exclD : List FPath)
        (incF trkF exclF : List String) (p : FPath),
        explicitMemV1 tree incF trkF p = false →
        exclF.any (fun pat => matchesExcludeForFileV1 p pat) = true →
        buildMirrorSetV1 tree incD trkD incF trkF exclF exclD p = none) := by
  refine ⟨?_, ?_, ?_⟩
  · intro tree incD trkD exclD incF trkF exclF p hm
    unfold buildMirrorSetV1
    simp only [hm, if_true]
    rw [applyAll_apply]
    cases hlv : lastVal (explicitUpdatesV1 tree incF trkF) p with
    | none => exact absurd hlv (explicitUpdatesV1_hasKey tree incF trkF p hm)
    | some v => simp
  · intro tree incD trkD exclD incF trkF exclF prio p hp
    unfold buildFileSetsV2
    simp only
    rcases hp with hinc | htrk
    · exact List.mem_append.mpr (Or.inl (List.mem_append.mpr (Or.inr hinc)))
    · by_cases hi : p ∈ (expandFilePatternsV2 tree incF).map (fun f => f.parts)
      · exact List.mem_append.mpr (Or.inl (List.mem_append.mpr (Or.inr hi)))
      · refine List.mem_append.mpr (Or.inr ?_)
        refine List.mem_filter.mpr ⟨htrk, ?_⟩
        have hcon : (incFilesV2 tree incF).contains p = false := by
          cases hc : (incFilesV2 tree incF).contains p
          · rfl
          · exact absurd (List.mem_of_elem_eq_true hc) hi
        rw [hcon]
        rfl
  · intro tree incD trkD exclD incF trkF exclF p hm hex
    unfold buildMirrorSetV1
    simp [hm, hex]

/-- C1 witness: a tree with one file matched by the explicit pattern that an
exclude_files pattern also matches; the file stays in both classifications,
and the same exclude pattern removes a non-explicit file. -/
theorem C1_exemption_invariant_witness :
    (buildMirrorSetV1 [⟨["x.txt"], 5, 0⟩] [] [] ["*.txt"] [] ["*.txt"] []
        ["x.txt"] ≠ none) ∧
    (["x.txt"] ∈ (buildFileSetsV2 [⟨["x.txt"], 5, 0⟩] [] [] [] ["*.txt"] []
        ["*.txt"] "track").allFiles) ∧
    (buildMirrorSetV1 [] [] [] [] [] ["*.log"] [] ["y.log"] = none) := by
  refine ⟨?_, ?_, ?_⟩
  · exact C1_exemption_invariant.1 [⟨["x.txt"], 5, 0⟩] [] [] [] ["*.txt"] []
      ["*.txt"] ["x.txt"] (by decide)
  · exact C1_exemption_invariant.2.1 [⟨["x.txt"], 5, 0⟩] [] [] [] ["*.txt"] []
      ["*.txt"] "track" ["x.txt"] (by decide)
  · exact C1_exemption_invariant.2.2 [] [] [] [] [] [] ["*.log"] ["y.log"]
      (by decide) (by decide)

/-- C8 counterexample: with exclude_dirs containing notes/drafts and
include_files containing the plain pattern for text files, the source file
notes/drafts/x.txt is NOT in the classification of either variant: the plain
pattern goes through a non-recursive glob that matches only direct children
of the source root, so the file is not explicit, and directory exclusion
prunes it from the walk — the claim asserts it is included. -/
theorem C8_counterexample :
    buildMirrorSetV1 [⟨["notes", "drafts", "x.txt"], 10, 0⟩] [["notes"]] []
        ["*.txt"] [] [] [["notes", "drafts"]] ["notes", "drafts", "x.txt"] =
      none ∧
    ["notes", "drafts", "x.txt"] ∉
      (buildFileSetsV2 [⟨["notes", "drafts", "x.txt"], 10, 0⟩] [["notes"]] []
        [["notes", "drafts"]] ["*.txt"] [] [] "track").allFiles := by
  constructor
  · rfl
  · decide

/-- C8 (amended): the explicit-file exemption does override directory
exclusion, but only for a pattern that actually matches the file — with the
recursive pattern (the :rec suffix) the file notes/drafts/x.txt is matched
by include_files, becomes explicit, and is included in the classification of
both variants even though its directory is excluded. -/
theorem C8_scenario_d_amended :
    buildMirrorSetV1 [⟨["notes", "drafts", "x.txt"], 10, 0⟩] [["notes"]] []
        ["*.txt:rec"] [] [] [["notes", "drafts"]] ["notes", "drafts", "x.txt"] =
      some (false, 10, 0) ∧
    ["notes", "drafts", "x.txt"] ∈
      (buildFileSetsV2 [⟨["notes", "drafts", "x.txt"], 10, 0⟩] [["notes"]] []
        [["notes", "drafts"]] ["*.txt:rec"] [] [] "track").allFiles := by
  constructor
  · rfl
  · decide

/-- A keyed pair in the update list means the last value is not none. -/
theorem lastVal_ne_none_of_mem {V : Type} (us : List (FPath × V)) (p : FPath)
    (v : V) (h : (p, v) ∈ us) : lastVal us p ≠ none := by
  intro hn
  exact (lastVal_eq_none_iff us p).mp hn _ h rfl

/-- C10 counterexample: a file matched both by an include_files pattern and
by a track_files pattern is in the V2 classification but NOT tracked there
(build_file_sets subtracts the include_files expansion from the track_files
expansion), refuting the claimed track_files precedence for that variant. -/
theorem C10_counterexample :
    (["a.txt"] ∈ (buildFileSetsV2 [⟨["a.txt"], 1, 0⟩] [] [] [] ["a.*"]
        ["*.txt"] [] "track").allFiles) ∧
    (["a.txt"] ∉ (buildFileSetsV2 [⟨["a.txt"], 1, 0⟩] [] [] [] ["a.*"]
        ["*.txt"] [] "track").trackedFiles) := by decide

/-- C10 (amended): the two variants resolve the overlap oppositely.  In
build_mirror_set_with_metadata (V1) the track_files patterns are processed
after the include_files patterns and overwrite the entry, so a file matched
by a track_files pattern ends tracked.  In build_file_sets (V2) the
include_files expansion is subtracted from the track_files expansion, so a
file matched by an include_files pattern is in the classification but is
tracked only if it also survives from a track directory. -/
theorem C10_explicit_overlap_amended :
    (∀ (tree : List FileEntry) (incD trkD exclD : List FPath)
        (incF trkF exclF : List String) (p : FPath),
        trkF.any (fun pattern =>
            (expandExplicitV1 tree pattern).any (fun f => f.parts == p)) = true →
        ∃ sz mt, buildMirrorSetV1 tree incD trkD incF trkF exclF exclD p =
          some (true, sz, mt)) ∧
    (∀ (tree : List FileEntry) (incD trkD exclD : List FPath)
        (incF trkF exclF : List String) (prio : String) (p : FPath),
        p ∈ incFilesV2 tree incF →
        p ∈ (buildFileSetsV2 tree incD trkD exclD incF trkF exclF prio).allFiles ∧
          (p ∈ (buildFileSetsV2 tree incD trkD exclD incF trkF exclF prio).trackedFiles ↔
            p ∈ filtTrkV2 tree incD trkD exclD prio exclF)) := by
  constructor
  · intro tree incD trkD exclD incF trkF exclF p hp
    obtain ⟨pattern, hpat, hin⟩ := List.any_eq_true.mp hp
    obtain ⟨f, hf, hfp⟩ := List.any_eq_true.mp hin
    have hfp2 : f.parts = p := by simpa using hfp
    have hc : trkF.contains pattern = true := List.elem_eq_true_of_mem hpat
    have hm : explicitMemV1 tree incF trkF p = true := by
      unfold explicitMemV1
      exact List.any_eq_true.mpr
        ⟨pattern, List.mem_append_right _ hpat, List.any_eq_true.mpr ⟨f, hf, hfp⟩⟩
    have hsplit : explicitUpdatesV1 tree incF trkF =
        incF.flatMap (fun pattern => (expandExplicitV1 tree pattern).map (fun f =>
          (f.parts, (trkF.contains pattern, f.size, f.mtime)))) ++
        trkF.flatMap (fun pattern => (expandExplicitV1 tree pattern).map (fun f =>
          (f.parts, (trkF.contains pattern, f.size, f.mtime)))) := by
      unfold explicitUpdatesV1
      exact List.flatMap_append ..
    have hvalmem : (p, (true, f.size, f.mtime)) ∈
        trkF.flatMap (fun pattern => (expandExplicitV1 tree pattern).map (fun f =>
          (f.parts, (trkF.contains pattern, f.size, f.mtime)))) := by
      rw [List.mem_flatMap]
      exact ⟨pattern, hpat, List.mem_map.mpr ⟨f, hf, by rw [hfp2, hc]⟩⟩
    unfold buildMirrorSetV1
    simp only [hm, if_true]
    rw [applyAll_apply, hsplit, lastVal_append]
    cases hlv : lastVal
        (trkF.flatMap (fun pattern => (expandExplicitV1 tree pattern).map (fun f =>
          (f.parts, (trkF.contains pattern, f.size, f.mtime))))) p with
    | none => exact absurd hlv (lastVal_ne_none_of_mem _ p _ hvalmem)
    | some v =>
      have hmemv := lastVal_mem _ p v hlv
      obtain ⟨pattern2, hpat2, hmap⟩ := List.mem_flatMap.mp hmemv
      obtain ⟨g, hg, hge⟩ := List.mem_map.mp hmap
      have hv1 : v.1 = true := by
        have he := congrArg (fun q => q.2.1) hge
        simp only at he
        rw [← he]
        exact List.elem_eq_true_of_mem hpat2
      refine ⟨v.2.1, v.2.2, ?_⟩
      rw [← hv1]
      exact rfl
  · intro tree incD trkD exclD incF trkF exclF prio p hp
    have hall : p ∈ (buildFileSetsV2 tree incD trkD exclD incF trkF exclF
        prio).allFiles := by
      unfold buildFileSetsV2
      exact List.mem_append.mpr (Or.inl (List.mem_append.mpr (Or.inr hp)))
    refine ⟨hall, ?_, ?_⟩
    · intro htr
      unfold buildFileSetsV2 at htr
      simp only at htr
      have h1 := (List.mem_filter.mp htr).1
      rcases List.mem_append.mp h1 with h2 | h3
      · exact h2
      · exfalso
        unfold trkFilesV2 at h3
        have h4 := (List.mem_filter.mp h3).2
        have h5 : (incFilesV2 tree incF).contains p = true :=
          List.elem_eq_true_of_mem hp
        rw [h5] at h4
        exact absurd h4 (by decide)
    · intro hft
      unfold buildFileSetsV2
      simp only
      refine List.mem_filter.mpr ⟨List.mem_append.mpr (Or.inl hft), ?_⟩
      exact List.elem_eq_true_of_mem hall

theorem C10_explicit_overlap_witness :
    (∃ sz mt, buildMirrorSetV1 [⟨["a.txt"], 1, 0⟩] [] [] ["a.*"] ["*.txt"] [] []
        ["a.txt"] = some (true, sz, mt)) ∧
    (["a.txt"] ∈ (buildFileSetsV2 [⟨["a.txt"], 1, 0⟩] [] [] [] ["a.*"] ["*.txt"]
        [] "track").allFiles ∧
      (["a.txt"] ∈ (buildFileSetsV2 [⟨["a.txt"], 1, 0⟩] [] [] [] ["a.*"]
          ["*.txt"] [] "track").trackedFiles ↔
        ["a.txt"] ∈ filtTrkV2 [⟨["a.txt"], 1, 0⟩] [] [] [] "track" [])) :=
  ⟨C10_explicit_overlap_amended.1 [⟨["a.txt"], 1, 0⟩] [] [] [] ["a.*"] ["*.txt"]
      [] ["a.txt"] (by decide),
   C10_explicit_overlap_amended.2 [⟨["a.txt"], 1, 0⟩] [] [] [] ["a.*"] ["*.txt"]
      [] "track" ["a.txt"] (by decide)⟩

/-- Cleanup never renames a surviving directory. -/
theorem removeEmptyDirsV2_name (preserve : List String) (t t2 : DirTree)
    (h : removeEmptyDirsV2 preserve t = some t2) : t2.dirName = t.dirName := by
  cases t with
  | node name subs files =>
    simp only [removeEmptyDirsV2] at h
    split_ifs at h
    injection h with h2
    rw [← h2]
    rfl

/-- A directory whose name triggers the preserve test always survives. -/
theorem removeEmptyDirsV2_preserved (preserve : List String) (t : DirTree)
    (h : preserveHit preserve t.dirName = true) :
    (removeEmptyDirsV2 preserve t).isSome = true := by
  cases t with
  | node name subs files =>
    have hn : preserveHit preserve name = true := h
    simp [removeEmptyDirsV2, hn]

mutual
/-- The cleanup never touches a file: the files of the cleaned tree are
exactly the files of the original tree (in particular a removed directory
contained no files). -/
theorem removeEmptyDirsV2_files (preserve : List String) :
    ∀ t : DirTree, treeFilesO (removeEmptyDirsV2 preserve t) = treeFiles t
  | .node name subs files => by
    have hsubs := removeEmptyDirsListV2_files preserve subs
    simp only [removeEmptyDirsV2]
    split_ifs with hcond
    · simp only [treeFilesO]
      have hse : (removeEmptyDirsListV2 preserve subs).isEmpty = true := by
        revert hcond
        cases (removeEmptyDirsListV2 preserve subs).isEmpty <;> simp
      have hfe : files.isEmpty = true := by
        revert hcond
        cases files.isEmpty <;> cases (removeEmptyDirsListV2 preserve subs).isEmpty <;> simp
      have hs0 : removeEmptyDirsListV2 preserve subs = [] := by
        revert hse
        cases removeEmptyDirsListV2 preserve subs <;> simp
      have hf0 : files = [] := by
        revert hfe
        cases files <;> simp
      have htl : treeFilesList subs = [] := by
        rw [← hsubs, hs0]
        rfl
      simp [treeFiles, htl, hf0]
    · simp only [treeFilesO, treeFiles]
      rw [hsubs]

/-- List version of the file-frame property. -/
theorem removeEmptyDirsListV2_files (preserve : List String) :
    ∀ ts : List DirTree,
      treeFilesList (removeEmptyDirsListV2 preserve ts) = treeFilesList ts
  | [] => by simp [removeEmptyDirsListV2]
  | t :: ts => by
    have h1 := removeEmptyDirsV2_files preserve t
    have h2 := removeEmptyDirsListV2_files preserve ts
    simp only [removeEmptyDirsListV2]
    cases hrm : removeEmptyDirsV2 preserve t with
    | some t2 =>
      simp only [treeFilesList]
      have hname : t2.dirName = t.dirName := removeEmptyDirsV2_name preserve t t2 hrm
      have hft : treeFiles t2 = treeFiles t := by
        rw [hrm] at h1
        exact h1
      rw [hname, hft, h2]
    | none =>
      have hft : treeFiles t = [] := by
        rw [hrm] at h1
        exact h1.symm
      rw [h2]
      simp only [treeFilesList]
      rw [hft]
      simp
end

/-- A preserved-named direct subdirectory is never dropped by the cleanup of
a subdirectory list, and keeps its name. -/
theorem removeEmptyDirsListV2_preserved (preserve : List String) :
    ∀ (subs : List DirTree) (d : DirTree), d ∈ subs →
      preserveHit preserve d.dirName = true →
      ∃ d2 ∈ removeEmptyDirsListV2 preserve subs, d2.dirName = d.dirName := by
  intro subs
  induction subs with
  | nil => intro d hd; exact absurd hd (List.not_mem_nil d)
  | cons t ts ih =>
    intro d hd hp
    rcases List.mem_cons.mp hd with rfl | hd2
    · have hsome := removeEmptyDirsV2_preserved preserve d hp
      cases hrm : removeEmptyDirsV2 preserve d with
      | none => rw [hrm] at hsome; exact absurd hsome (by decide)
      | some d2 =>
        refine ⟨d2, ?_, removeEmptyDirsV2_name preserve d d2 hrm⟩
        simp only [removeEmptyDirsListV2, hrm]
        exact List.mem_cons_self _ _
    · obtain ⟨d2, hmem, hname⟩ := ih d hd2 hp
      refine ⟨d2, ?_, hname⟩
      simp only [removeEmptyDirsListV2]
      cases removeEmptyDirsV2 preserve t with
      | some t2 => exact List.mem_cons_of_mem _ hmem
      | none => exact hmem

/-- C9 counterexample: the recursive cleanup of src/backup.py, invoked on
the mirror root itself with a preserve set not covering its name, removes
the root directory when it is empty — against the clause that the mirror
root is never removed. -/
theorem C9_counterexample :
    removeEmptyDirsV2 [".git"] (.node "mirror" [] []) = none := by
  simp [removeEmptyDirsV2, removeEmptyDirsListV2, preserveHit, strContainsSub,
    strContainsSub.isInfixList]

/-- C9 (amended): the empty-directory cleanup never touches a file (the file
set of the cleaned tree equals the original one, so only directories that
are empty after cleanup disappear); a directory whose name contains a
preserved entry — in particular one whose name is in the preserved set — is
never removed, neither at the root nor as a subdirectory; the os.walk-based
cleanup of backup.py never removes the root it is invoked on (it has no
preserved set); but the recursive cleanup of src/backup.py does remove the
directory it is invoked on when that ends up empty and unpreserved. -/
theorem C9_preserved_dirs_amended :
    (∀ (preserve : List String) (t : DirTree),
        treeFilesO (removeEmptyDirsV2 preserve t) = treeFiles t) ∧
    (∀ (preserve : List String) (t : DirTree),
        preserveHit preserve t.dirName = true →
        (removeEmptyDirsV2 preserve t).isSome = true) ∧
    (∀ (preserve : List String) (subs : List DirTree) (d : DirTree),
        d ∈ subs → preserveHit preserve d.dirName = true →
        ∃ d2 ∈ removeEmptyDirsListV2 preserve subs, d2.dirName = d.dirName) ∧
    (∀ t : DirTree, treeFiles (pruneEmptySubdirsV1 t) = treeFiles t ∧
        (pruneEmptySubdirsV1 t).dirName = t.dirName) := by
  refine ⟨removeEmptyDirsV2_files, removeEmptyDirsV2_preserved,
    removeEmptyDirsListV2_preserved, ?_⟩
  intro t
  cases t with
  | node name subs files =>
    constructor
    · simp only [pruneEmptySubdirsV1, treeFiles]
      rw [removeEmptyDirsListV2_files]
    · rfl

theorem C9_preserved_dirs_amended_witness :
    ((removeEmptyDirsV2 [".git"] (.node ".git" [] [])).isSome = true) ∧
    (∃ d2 ∈ removeEmptyDirsListV2 ["node_modules"]
        [.node "node_modules" [] []],
      d2.dirName = (DirTree.node "node_modules" [] []).dirName) :=
  ⟨C9_preserved_dirs_amended.2.1 [".git"] (.node ".git" [] [])
      (by simp [preserveHit, strContainsSub, strContainsSub.isInfixList,
        DirTree.dirName]),
   C9_preserved_dirs_amended.2.2.1 ["node_modules"]
      [.node "node_modules" [] []] (.node "node_modules" [] [])
      (List.mem_cons_self _ _)
      (by simp [preserveHit, strContainsSub, strContainsSub.isInfixList,
        DirTree.dirName])⟩

/-! ### Characterisation of the directory tagging phases (build_file_sets) -/

/-- The retagging rule applied to an existing tag when a file is found again
under a track directory: an existing tag survives only under include
priority, otherwise (and for a fresh file) the tag becomes track. -/
def tagRule (prio : String) : Option String → Option String
  | some v => if prio == "include" then some v else some "track"
  | none => some "track"

theorem tagRule_idem (prio : String) (x : Option String) :
    tagRule prio (tagRule prio x) = tagRule prio x := by
  cases x with
  | none =>
    by_cases hi : prio == "include" <;> simp [tagRule, hi]
  | some v =>
    by_cases hi : prio == "include" <;> simp [tagRule, hi]

theorem step2V2_apply (prio : String) (m : FileDict String) (q p : FPath) :
    step2V2 prio m q p = if q == p then tagRule prio (m p) else m p := by
  by_cases hq : q == p
  · have hqp : q = p := by simpa using hq
    subst hqp
    unfold step2V2 tagRule
    cases hm : m q with
    | some v =>
      by_cases hi : prio == "include" <;> simp [hm, hi, updateD]
    | none =>
      by_cases hi : prio == "include" <;> simp [hm, hi, updateD]
  · unfold step2V2
    cases hm : m q with
    | some v =>
      by_cases hi : prio == "include" <;> simp [hm, hi, updateD, hq]
    | none => simp [hm, updateD, hq]

/-- Effect of one directory scan (the inner file fold of phase 2) on the tag
of one path. -/
theorem step2V2_fold_apply (prio : String) :
    ∀ (fs : List FileEntry) (m : FileDict String) (p : FPath),
      (fs.foldl (fun m f => step2V2 prio m f.parts) m) p =
        if fs.any (fun f => f.parts == p) then tagRule prio (m p) else m p := by
  intro fs
  induction fs with
  | nil => intro m p; simp
  | cons f fs ih =>
    intro m p
    simp only [List.foldl_cons, List.any_cons]
    rw [ih]
    by_cases hfp : f.parts == p
    · rw [step2V2_apply, if_pos hfp]
      by_cases hany : fs.any (fun f => f.parts == p) = true
      · simp [hfp, hany, tagRule_idem]
      · have h2 : fs.any (fun f => f.parts == p) = false := by
          revert hany; cases fs.any (fun f => f.parts == p) <;> simp
        simp [hfp, h2]
    · rw [step2V2_apply, if_neg hfp]
      have hbp : (f.parts == p) = false := by
        revert hfp; cases f.parts == p <;> simp
      simp [hbp]

/-- Effect of phase 2 (the track-directory scans) on the tag of one path. -/
theorem phase2V2_apply (tree : List FileEntry) (excl : List FPath) (prio : String) :
    ∀ (trkD : List FPath) (m0 : FileDict String) (p : FPath),
      phase2V2 tree excl prio m0 trkD p =
        if trkD.any (fun d => (scanDirV2 tree d excl).any (fun f => f.parts == p))
        then tagRule prio (m0 p) else m0 p := by
  intro trkD
  induction trkD with
  | nil => intro m0 p; simp [phase2V2]
  | cons d ds ih =>
    intro m0 p
    simp only [phase2V2, List.foldl_cons, List.any_cons]
    rw [show (ds.foldl (fun m d => (scanDirV2 tree d excl).foldl
        (fun m f => step2V2 prio m f.parts) m)
        ((scanDirV2 tree d excl).foldl (fun m f => step2V2 prio m f.parts) m0)) =
      phase2V2 tree excl prio
        ((scanDirV2 tree d excl).foldl (fun m f => step2V2 prio m f.parts) m0) ds
      from rfl]
    rw [ih, step2V2_fold_apply]
    by_cases hd : (scanDirV2 tree d excl).any (fun f => f.parts == p) = true
    · by_cases hds : ds.any (fun d =>
          (scanDirV2 tree d excl).any (fun f => f.parts == p)) = true
      · simp [hd, hds, tagRule_idem]
      · have h2 : ds.any (fun d =>
            (scanDirV2 tree d excl).any (fun f => f.parts == p)) = false := by
          revert hds
          cases ds.any (fun d => (scanDirV2 tree d excl).any (fun f => f.parts == p)) <;>
            simp
        simp [hd, h2]
    · have h1 : (scanDirV2 tree d excl).any (fun f => f.parts == p) = false := by
        revert hd
        cases (scanDirV2 tree d excl).any (fun f => f.parts == p) <;> simp
      simp [h1]

/-- Effect of phase 1 (the include-directory scans) on the tag of one path. -/
theorem phase1V2_apply (tree : List FileEntry) (excl : List FPath)
    (incD : List FPath) (p : FPath) :
    phase1V2 tree excl incD p =
      if incD.any (fun d => (scanDirV2 tree d excl).any (fun f => f.parts == p))
      then some "include" else none := by
  unfold phase1V2
  rw [applyAll_apply, Option.or_none]
  by_cases hk : incD.any (fun d =>
      (scanDirV2 tree d excl).any (fun f => f.parts == p)) = true
  · obtain ⟨d, hd, hin⟩ := List.any_eq_true.mp hk
    obtain ⟨f, hf, hfp⟩ := List.any_eq_true.mp hin
    have hfp2 : f.parts = p := by simpa using hfp
    have hmem : (p, "include") ∈ incD.flatMap (fun d =>
        (scanDirV2 tree d excl).map (fun f => (f.parts, "include"))) := by
      rw [List.mem_flatMap]
      exact ⟨d, hd, List.mem_map.mpr ⟨f, hf, by rw [hfp2]⟩⟩
    cases hlv : lastVal (incD.flatMap (fun d =>
        (scanDirV2 tree d excl).map (fun f => (f.parts, "include")))) p with
    | none => exact absurd hlv (lastVal_ne_none_of_mem _ p _ hmem)
    | some v =>
      have hmemv := lastVal_mem _ p v hlv
      obtain ⟨d2, hd2, hmap⟩ := List.mem_flatMap.mp hmemv
      obtain ⟨g, hg, hge⟩ := List.mem_map.mp hmap
      have hv : v = "include" := (congrArg (fun q => q.2) hge).symm
      rw [hv, if_pos hk]
  · have hnone : lastVal (incD.flatMap (fun d =>
        (scanDirV2 tree d excl).map (fun f => (f.parts, "include")))) p = none := by
      rw [lastVal_eq_none_iff]
      intro kv hkv hkp
      obtain ⟨d, hd, hmap⟩ := List.mem_flatMap.mp hkv
      obtain ⟨g, hg, hge⟩ := List.mem_map.mp hmap
      have hgp : g.parts = p := by
        have := congrArg (fun q => q.1) hge
        simp only at this
        rw [this, hkp]
      apply hk
      exact List.any_eq_true.mpr ⟨d, hd,
        List.any_eq_true.mpr ⟨g, hg, by simp [hgp]⟩⟩
    rw [hnone, if_neg hk]

/-- Final tag of a path after both phases of build_file_sets. -/
theorem fileToDirTypeV2_apply (tree : List FileEntry) (incD trkD excl : List FPath)
    (prio : String) (p : FPath) :
    fileToDirTypeV2 tree incD trkD excl prio p =
      (if trkD.any (fun d => (scanDirV2 tree d excl).any (fun f => f.parts == p))
       then tagRule prio
         (if incD.any (fun d => (scanDirV2 tree d excl).any (fun f => f.parts == p))
          then some "include" else none)
       else
         (if incD.any (fun d => (scanDirV2 tree d excl).any (fun f => f.parts == p))
          then some "include" else none)) := by
  unfold fileToDirTypeV2
  rw [phase2V2_apply, phase1V2_apply]

/-- C6: directory priority.  A file reachable both via an include_dirs root
and via a track_dirs root ends up in the classification, and its final
tracked flag is decided by the configured directory_priority: tracked
exactly when the priority is track (the default), not tracked when it is
include.  The statement quantifies over arbitrary include/track directory
lists, so it holds for every order in which the directories are walked (any
walk order is an instance of the quantified lists).  The file must survive
exclude_files and must not be matched by an explicit track_files pattern
(such a match would be governed by the explicit-pattern rules instead).
The second conjunct covers build_mirror_set_with_metadata (V1), which has
no directory_priority setting: there the track directories are walked after
the include directories and overwrite the flag, realising the default track
priority for a non-explicit, non-excluded file. -/
theorem C6_directory_priority :
    (∀ (tree : List FileEntry) (incD trkD exclD : List FPath)
      (incF trkF exclF : List String) (prio : String) (p : FPath),
      prio = "include" ∨ prio = "track" →
      incD.any (fun d => (scanDirV2 tree d exclD).any (fun f => f.parts == p)) = true →
      trkD.any (fun d => (scanDirV2 tree d exclD).any (fun f => f.parts == p)) = true →
      isFileExcludedV2 p exclF = false →
      p ∉ trkFilesV2 tree incF trkF →
      p ∈ (buildFileSetsV2 tree incD trkD exclD incF trkF exclF prio).allFiles ∧
        (p ∈ (buildFileSetsV2 tree incD trkD exclD incF trkF exclF prio).trackedFiles ↔
          prio = "track")) ∧
    (∀ (tree : List FileEntry) (incD trkD exclD : List FPath)
      (incF trkF exclF : List String) (p : FPath),
      trkD.any (fun d => (walkCollectV1 tree d exclD).any (fun f => f.parts == p)) = true →
      explicitMemV1 tree incF trkF p = false →
      exclF.any (fun pat => matchesExcludeForFileV1 p pat) = false →
      ∃ sz mt, buildMirrorSetV1 tree incD trkD incF trkF exclF exclD p =
        some (true, sz, mt)) := by
  constructor
  swap
  · intro tree incD trkD exclD incF trkF exclF p hT hm hex
    have hlvExp : lastVal (explicitUpdatesV1 tree incF trkF) p = none := by
      rw [lastVal_eq_none_iff]
      intro kv hkv hkp
      obtain ⟨pattern, hpat, hmap⟩ := List.mem_flatMap.mp hkv
      obtain ⟨g, hg, hge⟩ := List.mem_map.mp hmap
      have hgp : g.parts = p := by
        have := congrArg (fun q => q.1) hge
        simp only at this
        rw [this, hkp]
      have : explicitMemV1 tree incF trkF p = true := by
        unfold explicitMemV1
        exact List.any_eq_true.mpr ⟨pattern, hpat,
          List.any_eq_true.mpr ⟨g, hg, by simp [hgp]⟩⟩
      rw [hm] at this
      exact absurd this (by decide)
    have hsplit : walkUpdatesV1 tree incD trkD exclD =
        incD.flatMap (fun d => (walkCollectV1 tree d exclD).map (fun f =>
          (f.parts, (trkD.contains d, f.size, f.mtime)))) ++
        trkD.flatMap (fun d => (walkCollectV1 tree d exclD).map (fun f =>
          (f.parts, (trkD.contains d, f.size, f.mtime)))) := by
      unfold walkUpdatesV1
      exact List.flatMap_append ..
    obtain ⟨d, hd, hin⟩ := List.any_eq_true.mp hT
    obtain ⟨f, hf, hfp⟩ := List.any_eq_true.mp hin
    have hfp2 : f.parts = p := by simpa using hfp
    have hc : trkD.contains d = true := List.elem_eq_true_of_mem hd
    have hvalmem : (p, (true, f.size, f.mtime)) ∈
        trkD.flatMap (fun d => (walkCollectV1 tree d exclD).map (fun f =>
          (f.parts, (trkD.contains d, f.size, f.mtime)))) := by
      rw [List.mem_flatMap]
      exact ⟨d, hd, List.mem_map.mpr ⟨f, hf, by rw [hfp2, hc]⟩⟩
    unfold buildMirrorSetV1
    simp only [hm, Bool.false_eq_true, if_false, hex]
    rw [applyAll_apply, hlvExp, Option.none_or, applyAll_apply, Option.or_none,
      hsplit, lastVal_append]
    cases hlv : lastVal
        (trkD.flatMap (fun d => (walkCollectV1 tree d exclD).map (fun f =>
          (f.parts, (trkD.contains d, f.size, f.mtime))))) p with
    | none => exact absurd hlv (lastVal_ne_none_of_mem _ p _ hvalmem)
    | some v =>
      have hmemv := lastVal_mem _ p v hlv
      obtain ⟨d2, hd2, hmap⟩ := List.mem_flatMap.mp hmemv
      obtain ⟨g, hg, hge⟩ := List.mem_map.mp hmap
      have hv1 : v.1 = true := by
        have he := congrArg (fun q => q.2.1) hge
        simp only at he
        rw [← he]
        exact List.elem_eq_true_of_mem hd2
      refine ⟨v.2.1, v.2.2, ?_⟩
      rw [← hv1]
      exact rfl
  intro tree incD trkD exclD incF trkF exclF prio p hprio hI hT hex hntf
  have hkeys : p ∈ scannedKeysV2 tree incD trkD exclD := by
    obtain ⟨d, hd, hin⟩ := List.any_eq_true.mp hT
    obtain ⟨f, hf, hfp⟩ := List.any_eq_true.mp hin
    have hfp2 : f.parts = p := by simpa using hfp
    unfold scannedKeysV2
    rw [List.mem_flatMap]
    exact ⟨d, List.mem_append_right _ hd, List.mem_map.mpr ⟨f, hf, hfp2⟩⟩
  have htag : fileToDirTypeV2 tree incD trkD exclD prio p =
      some (if prio == "include" then "include" else "track") := by
    rw [fileToDirTypeV2_apply, if_pos hT, if_pos hI]
    unfold tagRule
    by_cases hi : prio == "include" <;> simp [hi]
  rcases hprio with hpi | hpt
  · subst hpi
    have htag2 : fileToDirTypeV2 tree incD trkD exclD "include" p =
        some "include" := by
      rw [htag]
      decide
    have hfrom : p ∈ filesFromIncDirsV2 tree incD trkD exclD "include" := by
      unfold filesFromIncDirsV2
      refine List.mem_filter.mpr ⟨hkeys, ?_⟩
      rw [htag2]
      rfl
    have hfilt : p ∈ filtIncV2 tree incD trkD exclD "include" exclF := by
      unfold filtIncV2
      split_ifs
      · exact hfrom
      · exact List.mem_filter.mpr ⟨hfrom, by rw [hex]; rfl⟩
    have hall : p ∈ (buildFileSetsV2 tree incD trkD exclD incF trkF exclF
        "include").allFiles := by
      unfold buildFileSetsV2
      exact List.mem_append.mpr (Or.inl (List.mem_append.mpr (Or.inl
        (List.mem_append.mpr (Or.inl hfilt)))))
    refine ⟨hall, ?_, ?_⟩
    · intro htr
      exfalso
      unfold buildFileSetsV2 at htr
      simp only at htr
      have h1 := (List.mem_filter.mp htr).1
      rcases List.mem_append.mp h1 with h2 | h3
      · have h4 : p ∈ filesFromTrkDirsV2 tree incD trkD exclD "include" := by
          revert h2
          unfold filtTrkV2
          split_ifs
          · exact fun h => h
          · exact fun h => (List.mem_filter.mp h).1
        have h5 := (List.mem_filter.mp h4).2
        rw [htag2] at h5
        exact absurd h5 (by decide)
      · exact hntf h3
    · intro he
      exact absurd he (by decide)
  · subst hpt
    have htag2 : fileToDirTypeV2 tree incD trkD exclD "track" p =
        some "track" := by
      rw [htag]
      decide
    have hfrom : p ∈ filesFromTrkDirsV2 tree incD trkD exclD "track" := by
      unfold filesFromTrkDirsV2
      refine List.mem_filter.mpr ⟨hkeys, ?_⟩
      rw [htag2]
      rfl
    have hfilt : p ∈ filtTrkV2 tree incD trkD exclD "track" exclF := by
      unfold filtTrkV2
      split_ifs
      · exact hfrom
      · exact List.mem_filter.mpr ⟨hfrom, by rw [hex]; rfl⟩
    have hall : p ∈ (buildFileSetsV2 tree incD trkD exclD incF trkF exclF
        "track").allFiles := by
      unfold buildFileSetsV2
      exact List.mem_append.mpr (Or.inl (List.mem_append.mpr (Or.inl
        (List.mem_append.mpr (Or.inr hfilt)))))
    refine ⟨hall, fun _ => rfl, ?_⟩
    intro hmem2
    unfold buildFileSetsV2
    simp only
    refine List.mem_filter.mpr ⟨List.mem_append.mpr (Or.inl hfilt), ?_⟩
    exact List.elem_eq_true_of_mem hall

theorem C6_directory_priority_witness :
    (["a", "b", "f.txt"] ∈ (buildFileSetsV2 [⟨["a", "b", "f.txt"], 1, 0⟩]
        [["a"]] [["a", "b"]] [] [] [] [] "track").allFiles ∧
      (["a", "b", "f.txt"] ∈ (buildFileSetsV2 [⟨["a", "b", "f.txt"], 1, 0⟩]
          [["a"]] [["a", "b"]] [] [] [] [] "track").trackedFiles ↔
        "track" = "track")) ∧
    (["a", "b", "f.txt"] ∈ (buildFileSetsV2 [⟨["a", "b", "f.txt"], 1, 0⟩]
        [["a"]] [["a", "b"]] [] [] [] [] "include").allFiles ∧
      (["a", "b", "f.txt"] ∈ (buildFileSetsV2 [⟨["a", "b", "f.txt"], 1, 0⟩]
          [["a"]] [["a", "b"]] [] [] [] [] "include").trackedFiles ↔
        "include" = "track")) ∧
    (∃ sz mt, buildMirrorSetV1 [⟨["a", "b", "f.txt"], 1, 0⟩] [["a"]]
        [["a", "b"]] [] [] [] [] ["a", "b", "f.txt"] = some (true, sz, mt)) :=
  ⟨C6_directory_priority.1 [⟨["a", "b", "f.txt"], 1, 0⟩] [["a"]] [["a", "b"]]
      [] [] [] [] "track" ["a", "b", "f.txt"] (Or.inr rfl) (by decide)
      (by decide) (by decide) (by decide),
   C6_directory_priority.1 [⟨["a", "b", "f.txt"], 1, 0⟩] [["a"]] [["a", "b"]]
      [] [] [] [] "include" ["a", "b", "f.txt"] (Or.inl rfl) (by decide)
      (by decide) (by decide) (by decide),
   C6_directory_priority.2 [⟨["a", "b", "f.txt"], 1, 0⟩] [["a"]] [["a", "b"]]
      [] [] [] [] ["a", "b", "f.txt"] (by decide) (by decide) (by decide)⟩
